import Mathlib

/-!
Shallow embedding of the Stremio DigiMovie addon core (stream-handler title
normalization and candidate scoring, the DigiMovie provider client session and
link extraction, and the forwarding proxy's host allowlist check), together
with proofs of the specification claims about that code.

Strings are modelled as `List Char`.  JavaScript `undefined` string fields are
modelled as `Option (List Char)`; JavaScript string concatenation with
`undefined` produces the text "undefined", which the model mirrors.
-/

/-! ## JavaScript string primitives used by the code -/

/-- The JS regex-whitespace / trim whitespace class. -/
def wsChars : List Char :=
  [' ', '\t', '\n', '\x0b', '\x0c', '\r', '\u00A0', '\u1680', '\u2000', '\u2001',
   '\u2002', '\u2003', '\u2004', '\u2005', '\u2006', '\u2007', '\u2008', '\u2009',
   '\u200A', '\u2028', '\u2029', '\u202F', '\u205F', '\u3000', '\uFEFF']

def isWS (c : Char) : Bool := wsChars.contains c

/-- ASCII upper/lower case pairs, the effect of `String.prototype.toLowerCase`
    on the latin letters. -/
def upperLowerPairs : List (Char × Char) :=
  [('A', 'a'), ('B', 'b'), ('C', 'c'), ('D', 'd'), ('E', 'e'), ('F', 'f'),
   ('G', 'g'), ('H', 'h'), ('I', 'i'), ('J', 'j'), ('K', 'k'), ('L', 'l'),
   ('M', 'm'), ('N', 'n'), ('O', 'o'), ('P', 'p'), ('Q', 'q'), ('R', 'r'),
   ('S', 's'), ('T', 't'), ('U', 'u'), ('V', 'v'), ('W', 'w'), ('X', 'x'),
   ('Y', 'y'), ('Z', 'z')]

/-- Lowering of one character by `toLowerCase` (ASCII range; other characters are kept). -/
def jsLower (c : Char) : Char :=
  match upperLowerPairs.find? (fun p => p.1 = c) with
  | some p => p.2
  | none => c

/-- The map `str.toLowerCase()`. -/
def lowerStr (s : List Char) : List Char := s.map jsLower

/-- The substitution `str.replace(/&/g, "and")`: every ampersand becomes the three letters
    `and`, with no surrounding spaces added. -/
def replaceAmp : List Char → List Char
  | [] => []
  | c :: cs => if c = '&' then 'a' :: 'n' :: 'd' :: replaceAmp cs else c :: replaceAmp cs

/-- The substitution `str.replace(/^art\s+/i, "")` for a fixed article `art`: if the string
    starts with the article followed by at least one whitespace character, the
    article and the whole (greedy `\s+`) whitespace run are removed. -/
def stripArticle (art : List Char) (l : List Char) : List Char :=
  if art.isPrefixOf l then
    match l.drop art.length with
    | [] => l
    | c :: cs => if isWS c then cs.dropWhile isWS else l
  else l

/-- Does `/^art\s+/` match at the start of `l`? -/
def artMatches (art : List Char) (l : List Char) : Bool :=
  art.isPrefixOf l &&
    (match l.drop art.length with
     | [] => false
     | c :: _ => isWS c)

/-- The substitution `str.replace(/[:\-\.]/g, " ")`. -/
def replacePunct (s : List Char) : List Char :=
  s.map (fun c => if c = ':' || c = '-' || c = '.' then ' ' else c)

/-- The substitution `str.replace(/\s+/g, " ")`: each maximal whitespace run becomes one space. -/
def collapseWS : List Char → List Char
  | [] => []
  | [c] => if isWS c then [' '] else [c]
  | c1 :: c2 :: cs =>
    if isWS c1 then
      if isWS c2 then collapseWS (c2 :: cs)
      else ' ' :: collapseWS (c2 :: cs)
    else c1 :: collapseWS (c2 :: cs)

/-- Drop trailing whitespace (the right half of `str.trim()`). -/
def dropTrailWS : List Char → List Char
  | [] => []
  | c :: cs =>
    let r := dropTrailWS cs
    if r.isEmpty then (if isWS c then [] else [c]) else c :: r

/-- The trim `str.trim()`. -/
def trimWS (s : List Char) : List Char := dropTrailWS (s.dropWhile isWS)

def theChars : List Char := "the".toList

def aChars : List Char := "a".toList

def anChars : List Char := "an".toList

/-- The function `normalizeTitle` from the server (the stream-handler module):
    lowercase; `&` → `and`; strip `/^the\s+/`, then `/^a\s+/`, then
    `/^an\s+/`; punctuation `: - .` → space; collapse whitespace; trim.
    (`normalizeTitle(undefined)` returns `""`; on the empty string the
    pipeline below also returns `""`, so that guard needs no extra case.) -/
def normalizeTitle (s : List Char) : List Char :=
  trimWS (collapseWS (replacePunct
    (stripArticle anChars (stripArticle aChars (stripArticle theChars
      (replaceAmp (lowerStr s)))))))

/-- Does `normalizeTitle`'s article-stripping phase fire on `l`?  True when
    `l` starts with `the`, `a` or `an` followed by whitespace. -/
def startsWithArticle (l : List Char) : Bool :=
  artMatches theChars l || artMatches aChars l || artMatches anChars l

/-! ## Substring search (`String.prototype.includes` / `startsWith`) -/

/-- The test `hay.includes(needle)` (contiguous substring search). -/
def isSubL (needle : List Char) : List Char → Bool
  | [] => needle.isEmpty
  | c :: cs => needle.isPrefixOf (c :: cs) || isSubL needle cs

/-! ## JS number parsing and printing used by `getSeriesLinks` -/

def digitVal (c : Char) : Option Nat :=
  if '0' ≤ c && c ≤ '9' then some (c.toNat - '0'.toNat) else none

/-- Accumulate the maximal leading digit run (`parseInt` stops at the first
    non-digit). -/
def digitsAcc : List Char → Nat → Nat
  | [], acc => acc
  | c :: cs, acc =>
    match digitVal c with
    | some d => digitsAcc cs (acc * 10 + d)
    | none => acc

/-- Value of a maximal leading digit run; `none` when there is no digit. -/
def leadingDigits : List Char → Option Nat
  | [] => none
  | c :: cs =>
    match digitVal c with
    | none => none
    | some d => some (digitsAcc cs d)

/-- The parse `parseInt(s)` in base 10: skip leading whitespace, optional sign, then a
    maximal digit run; `none` models `NaN`. -/
def parseIntJS (s : List Char) : Option Int :=
  match s.dropWhile isWS with
  | '-' :: rest => (leadingDigits rest).map (fun n => -(n : Int))
  | '+' :: rest => (leadingDigits rest).map (fun n => (n : Int))
  | t => (leadingDigits t).map (fun n => (n : Int))

/-- Template-literal rendering of a JS number (`NaN` included). -/
def jsNumToStr : Option Int → List Char
  | none => "NaN".toList
  | some n => if n < 0 then '-' :: Nat.toDigits 10 n.natAbs else Nat.toDigits 10 n.toNat

/-- The split `str.split(":")`. -/
def splitColon : List Char → List (List Char)
  | [] => [[]]
  | c :: cs =>
    let r := splitColon cs
    if c = ':' then [] :: r
    else
      match r with
      | [] => [[c]]
      | h :: t => (c :: h) :: t

/-! ## Provider data model (`getMovieData` payload, extraction inputs) -/

/-- One entry of `movie_download_urls`.  Descriptive fields may be absent in
    the payload (JS `undefined`); the file reference is the url copied out. -/
structure MovieDownloadEntry where
  quality : Option (List Char)
  size : Option (List Char)
  encode : Option (List Char)
  label : Option (List Char)
  file : List Char
  deriving DecidableEq, Repr

/-- One entry of a season bucket's `links` array. -/
structure EpisodeLink where
  movie : List Char
  deriving DecidableEq, Repr

/-- One season bucket of `serie_download_urls`.  A missing `season_name`
    makes the JS filter callback throw (`undefined.replace`). -/
structure SeasonBucket where
  season_name : Option (List Char)
  quality : Option (List Char)
  size : Option (List Char)
  links : Option (List EpisodeLink)
  deriving DecidableEq, Repr

/-- The detail payload fields consumed by link extraction. -/
structure MovieData where
  movie_download_urls : Option (List MovieDownloadEntry)
  serie_download_urls : Option (List SeasonBucket)
  deriving DecidableEq, Repr

/-- Output unit: `{title, url}`. -/
structure StreamLink where
  title : List Char
  url : List Char
  deriving DecidableEq, Repr

/-- JS string coercion inside a `+` concatenation: `undefined` prints as the
    word `undefined`. -/
def jsStr : Option (List Char) → List Char
  | none => "undefined".toList
  | some s => s

def sepDash : List Char := " - ".toList

/-! ## Link extraction (`getMovieLinks`, `getSeriesLinks`) -/

/-- Title built for one movie download entry:
    `item.quality + " - " + item.size + " - " + item.encode + " - " + item.label`. -/
def movieTitle (it : MovieDownloadEntry) : List Char :=
  jsStr it.quality ++ sepDash ++ jsStr it.size ++ sepDash ++
    jsStr it.encode ++ sepDash ++ jsStr it.label

/-- The push loop of `getMovieLinks`. -/
def movieLinksLoop : List MovieDownloadEntry → List StreamLink
  | [] => []
  | it :: rest => { title := movieTitle it, url := it.file } :: movieLinksLoop rest

/-- The extractor `getMovieLinks(movieData)`: guard `!movieData || !movieData.movie_download_urls`,
    then one link per entry in order. -/
def getMovieLinks : Option MovieData → List StreamLink
  | none => []
  | some md =>
    match md.movie_download_urls with
    | none => []
    | some items => movieLinksLoop items

/-- The `(base, season, episode)` parsing of `getSeriesLinks`: split on `:`;
    season/episode are `parseInt(parts[1])`, `parseInt(parts[2])` when there
    are at least three parts, else both default to `1`. -/
def parseSE (imdbId : List Char) : Option Int × Option Int :=
  match splitColon imdbId with
  | _ :: p1 :: p2 :: _ => (parseIntJS p1, parseIntJS p2)
  | _ => (some 1, some 1)

/-- The needle `` `:${season}` `` searched for in de-spaced season names. -/
def seasonNeedle (season : Option Int) : List Char := ':' :: jsNumToStr season

/-- The substitution `str.replace(" ", "")`: remove only the first space. -/
def replaceFirstSpace : List Char → List Char
  | [] => []
  | c :: cs => if c = ' ' then cs else c :: replaceFirstSpace cs

/-- The filter callback `i => i.season_name.replace(" ", "").includes(seasonTitle)`
    on a bucket whose `season_name` is present. -/
def seasonMatches (needle : List Char) (sn : List Char) : Bool :=
  isSubL needle (replaceFirstSpace sn)

/-- The call `Array.prototype.filter` with the season callback; a bucket with no
    `season_name` raises a `TypeError`, modelled as `Except.error ()`. -/
def filterSeason (needle : List Char) : List SeasonBucket → Except Unit (List SeasonBucket)
  | [] => Except.ok []
  | b :: bs =>
    match b.season_name with
    | none => Except.error ()
    | some sn =>
      match filterSeason needle bs with
      | Except.error e => Except.error e
      | Except.ok rest =>
        Except.ok (if seasonMatches needle sn then b :: rest else rest)

/-- Series title for one bucket: `item.quality + " - " + item.size`. -/
def seriesTitle (b : SeasonBucket) : List Char :=
  jsStr b.quality ++ sepDash ++ jsStr b.size

/-- The lookup `links[episode - 1]`: negative, `NaN` (handled by the caller) and
    out-of-range indices all give `undefined`. -/
def getIdx (ls : List EpisodeLink) (i : Int) : Option EpisodeLink :=
  if i < 0 then none else ls.get? i.toNat

/-- The push loop of `getSeriesLinks` over the already-filtered buckets:
    a link is pushed only when `item.links && item.links[episode - 1]` is
    truthy. -/
def buildSeriesLinks (episode : Option Int) : List SeasonBucket → List StreamLink
  | [] => []
  | b :: bs =>
    match b.links with
    | none => buildSeriesLinks episode bs
    | some ls =>
      match episode with
      | none => buildSeriesLinks episode bs
      | some e =>
        match getIdx ls (e - 1) with
        | some ep => { title := seriesTitle b, url := ep.movie } :: buildSeriesLinks episode bs
        | none => buildSeriesLinks episode bs

/-- The body of `getSeriesLinks` before its `catch`: parse the id, filter the
    buckets (which may throw), then run the push loop.  The only throwing
    expression reachable from a well-typed payload is the filter callback's
    `season_name.replace` on a missing `season_name`, and the filter runs
    before the first push, so an error always escapes with zero links built. -/
def getSeriesLinksE (movieData : Option MovieData) (imdbId : List Char) :
    Except Unit (List StreamLink) :=
  let se := parseSE imdbId
  match movieData with
  | none => Except.ok []
  | some md =>
    match md.serie_download_urls with
    | none => Except.ok []
    | some buckets =>
      match filterSeason (seasonNeedle se.1) buckets with
      | Except.error e => Except.error e
      | Except.ok filtered => Except.ok (buildSeriesLinks se.2 filtered)

/-- The extractor `getSeriesLinks(movieData, imdbId)` with its surrounding `try`/`catch`:
    the catch logs and returns the `links` accumulated so far, which is the
    empty array because every reachable throw happens in the pre-loop filter. -/
def getSeriesLinks (movieData : Option MovieData) (imdbId : List Char) : List StreamLink :=
  match getSeriesLinksE movieData imdbId with
  | Except.ok ls => ls
  | Except.error _ => []

/-- Per-bucket result used to characterize `getSeriesLinks`. -/
def seriesLinkOf (needle : List Char) (episode : Option Int) (b : SeasonBucket) :
    Option StreamLink :=
  match b.season_name with
  | none => none
  | some sn =>
    if seasonMatches needle sn then
      match b.links, episode with
      | some ls, some e =>
        (getIdx ls (e - 1)).map (fun ep => { title := seriesTitle b, url := ep.movie })
      | _, _ => none
    else none

/-! ## Candidate scoring (stream handler) -/

/-- One provider search hit as consumed by the scorer. -/
structure SearchItem where
  name : List Char
  type : List Char
  deriving DecidableEq, Repr

/-- The name component of the score, over normalized names. -/
def nameScore (normTarget normItem : List Char) : Int :=
  if normItem = normTarget then 60
  else if normTarget.isPrefixOf normItem then 20
  else if isSubL normTarget normItem then 10
  else 0

/-- The kind component of the score. -/
def kindScore (reqType itemType : List Char) : Int :=
  if itemType = reqType then 100 else -50

/-- The score the stream handler assigns to one search item for a request of
    type `reqType` and (year-stripped) search title `searchTitle`. -/
def scoreFor (reqType : List Char) (searchTitle : List Char) (it : SearchItem) : Int :=
  kindScore reqType it.type +
    nameScore (normalizeTitle searchTitle) (normalizeTitle it.name)

/-! ## SessionManager (`isLogin` / `login`) -/

/-- Outcome of the `get_profile` probe request. -/
inductive ProbeResp where
  | netErr
  | statusFalse
  | statusTrue
  deriving DecidableEq, Repr

/-- Outcome of the `login` POST. -/
inductive LoginResp where
  | netErr
  | statusFalse
  | success (auth refresh : List Char)
  deriving DecidableEq, Repr

/-- Mutable fields of the `Digimovie` instance touched by the session code. -/
structure SessionState where
  username : List Char
  password : List Char
  token : List Char
  refreshToken : List Char
  deriving DecidableEq, Repr

/-- Network requests the session code can issue. -/
inductive NetCall where
  | getProfile
  | loginPost
  deriving DecidableEq, Repr

/-- Provider-side behaviour for one `login` invocation. -/
structure NetEnv where
  probe : ProbeResp
  loginCall : LoginResp
  deriving Repr

/-- The probe `isLogin()`: `if (!this.token) return false` (no request); otherwise one
    `get_profile` probe, true exactly when `res.data?.status` is truthy.
    Returns (result, instance state after the call, requests issued). -/
def isLogin (st : SessionState) (env : NetEnv) : Bool × SessionState × List NetCall :=
  if st.token.isEmpty then (false, st, [])
  else
    match env.probe with
    | ProbeResp.statusTrue => (true, st, [NetCall.getProfile])
    | ProbeResp.statusFalse => (false, st, [NetCall.getProfile])
    | ProbeResp.netErr => (false, st, [NetCall.getProfile])

/-- The method `login()`: refuse without any request when username or password is falsy;
    otherwise probe via `isLogin`, short-circuit when already valid, else one
    `login` POST that stores both tokens on success. -/
def login (st : SessionState) (env : NetEnv) : Bool × SessionState × List NetCall :=
  if st.username.isEmpty || st.password.isEmpty then (false, st, [])
  else
    match isLogin st env with
    | (true, st1, calls1) => (true, st1, calls1)
    | (false, st1, calls1) =>
      match env.loginCall with
      | LoginResp.success auth refresh =>
        (true, { st1 with token := auth, refreshToken := refresh }, calls1 ++ [NetCall.loginPost])
      | LoginResp.statusFalse => (false, st1, calls1 ++ [NetCall.loginPost])
      | LoginResp.netErr => (false, st1, calls1 ++ [NetCall.loginPost])

/-! ## `getMovieData` retry loop -/

/-- Outcome of one `get_movie_detail` request. -/
inductive DetailResp where
  | ok (d : MovieData)
  | authErr
  | otherErr
  deriving Repr

/-- The fetch `getMovieData` with the provider abstracted as response streams:
    `detail k` is the outcome of the `k`-th detail request and `reloginOk k`
    the outcome of the `k`-th in-band re-login.  The code recurses into
    itself after every successful re-login with no retry counter, so the
    model needs explicit fuel; `none` means the recursion did not finish
    within `fuel` provider calls. -/
def getMovieDataFuel (detail : Nat → DetailResp) (reloginOk : Nat → Bool) :
    Nat → Nat → Option (Option MovieData)
  | 0, _ => none
  | fuel + 1, k =>
    match detail k with
    | DetailResp.ok d => some (some d)
    | DetailResp.otherErr => some none
    | DetailResp.authErr =>
      if reloginOk k then getMovieDataFuel detail reloginOk fuel (k + 1)
      else some none

/-! ## Forwarding gateway (proxy server) -/

/-- Is `host` equal to an allowlist entry or a dot-suffixed subdomain of one?
    `ALLOWED_DOMAINS.some(d => host === d || host.endsWith("." + d))`. -/
def hostAllowed (allow : List (List Char)) (host : List Char) : Bool :=
  allow.any (fun d => host = d || List.isSuffixOf ('.' :: d) host)

/-- What the upstream fetch produced after redirects were followed. -/
structure FetchOutcome where
  finalHost : List Char
  size : Nat
  contentType : List Char
  deriving DecidableEq, Repr

/-- Terminal outcomes of the proxy handler. -/
inductive RelayOutcome where
  | missingUrl
  | invalidUrl
  | disallowedHost
  | disallowedFinal
  | tooLarge
  | fetchFail
  | ok (contentType : List Char)
  deriving DecidableEq, Repr

/-- HTTP status the handler answers with for each outcome. -/
def statusOf : RelayOutcome → Nat
  | RelayOutcome.missingUrl => 400
  | RelayOutcome.invalidUrl => 400
  | RelayOutcome.disallowedHost => 403
  | RelayOutcome.disallowedFinal => 403
  | RelayOutcome.tooLarge => 413
  | RelayOutcome.fetchFail => 500
  | RelayOutcome.ok _ => 200

def MAX_FILE_SIZE : Nat := 10 * 1024 * 1024

/-- The proxy handler.  `url` is the parsed `url` query parameter (`none`:
    absent; `some none`: unparseable; `some (some host)`: its hostname);
    `fetch` the upstream result (`none`: network failure).  The Bool records
    whether the upstream fetch was attempted. -/
def relay (allow : List (List Char)) (url : Option (Option (List Char)))
    (fetch : Option FetchOutcome) : RelayOutcome × Bool :=
  match url with
  | none => (RelayOutcome.missingUrl, false)
  | some none => (RelayOutcome.invalidUrl, false)
  | some (some host) =>
    if hostAllowed allow host then
      match fetch with
      | none => (RelayOutcome.fetchFail, true)
      | some r =>
        if hostAllowed allow r.finalHost then
          if r.size > MAX_FILE_SIZE then (RelayOutcome.tooLarge, true)
          else (RelayOutcome.ok r.contentType, true)
        else (RelayOutcome.disallowedFinal, true)
    else (RelayOutcome.disallowedHost, false)

/-- No two adjacent whitespace characters: the shape `collapseWS` output
    always has, and under which (with only plain spaces) it is a fixpoint. -/
def noAdjWS : List Char → Bool
  | c1 :: c2 :: cs => (!(isWS c1 && isWS c2)) && noAdjWS (c2 :: cs)
  | _ => true

/-! ## Concrete data used in the example proofs -/

def tMovie : List Char := "movie".toList

def tSeries : List Char := "series".toList

def tMatrix : List Char := "Matrix".toList

def tTheMatrix : List Char := "The Matrix".toList

def tMatrixLower : List Char := "matrix".toList

def tMatrixReloaded : List Char := "Matrix Reloaded".toList

def tAAmpB : List Char := "A&B".toList

def tAandB : List Char := "a and b".toList

def tAandb : List Char := "aandb".toList

def tTheATeam : List Char := "The A Team".toList

def tATeam : List Char := "a team".toList

def tTeam : List Char := "team".toList

def tATheB : List Char := "a the b".toList

def tSpiderMan : List Char := "Spider-Man: No Way Home".toList

def tSpiderManNorm : List Char := "spider man no way home".toList

def exId23 : List Char := "tt000:2:3".toList

def exBase : List Char := "tt000".toList

def tSeason2 : List Char := "Season :2".toList

def t1080p : List Char := "1080p".toList

def t2GB : List Char := "2GB".toList

def t1080p2GB : List Char := "1080p - 2GB".toList

def tU1 : List Char := "u1".toList

def tU2 : List Char := "u2".toList

def tU3 : List Char := "u3".toList

def tU4 : List Char := "u4".toList

def tU5 : List Char := "u5".toList

/-- A well-formed season-2 bucket with five episode entries. -/
def goodBucket : SeasonBucket :=
  { season_name := some tSeason2, quality := some t1080p, size := some t2GB,
    links := some [{ movie := tU1 }, { movie := tU2 }, { movie := tU3 },
                   { movie := tU4 }, { movie := tU5 }] }

/-- A malformed bucket: its `season_name` is absent, so the JS filter
    callback throws. -/
def badBucket : SeasonBucket :=
  { season_name := none, quality := none, size := none, links := none }

def mdGoodOnly : MovieData :=
  { movie_download_urls := none, serie_download_urls := some [goodBucket] }

def mdGoodAndBad : MovieData :=
  { movie_download_urls := none, serie_download_urls := some [goodBucket, badBucket] }

def tX265 : List Char := "x265".toList

def tWEB : List Char := "WEB".toList

def tFileUrl : List Char := "https://host/f.mkv".toList

def exMovieEntry : MovieDownloadEntry :=
  { quality := some t1080p, size := some t2GB, encode := some tX265,
    label := some tWEB, file := tFileUrl }

def exMovieTitle : List Char := "1080p - 2GB - x265 - WEB".toList

def tDigiDomain : List Char := "digimoviez.com".toList

def exAllow : List (List Char) := [tDigiDomain]

def tEvil : List Char := "evil.com".toList

def tCdn : List Char := "cdn.digimoviez.com".toList

def tCT : List Char := "video/mp4".toList

def exEnv : NetEnv := { probe := ProbeResp.statusTrue, loginCall := LoginResp.netErr }

def exStEmptyPw : SessionState :=
  { username := "user1".toList, password := [], token := [], refreshToken := [] }

def exStNoToken : SessionState :=
  { username := "user1".toList, password := "pw".toList, token := [],
    refreshToken := "r0".toList }

/-- A provider that answers every detail fetch with 401/403. -/
def alwaysAuthErr : Nat → DetailResp := fun _ => DetailResp.authErr

/-- A provider on which every re-login succeeds (for example the stored token
    still passes the `get_profile` probe). -/
def alwaysRelogin : Nat → Bool := fun _ => true

/-- A provider whose first two detail fetches are auth-rejected and whose
    third succeeds. -/
def twoAuthThenOk : Nat → DetailResp := fun k =>
  if k < 2 then DetailResp.authErr
  else DetailResp.ok { movie_download_urls := none, serie_download_urls := none }

/-- The filter predicate of `getSeriesLinks` on buckets whose `season_name`
    is present. -/
def bucketKeeps (needle : List Char) (b : SeasonBucket) : Bool :=
  match b.season_name with
  | some sn => seasonMatches needle sn
  | none => false

/-! ## Basic lemmas -/

theorem movieLinksLoop_eq_map (items : List MovieDownloadEntry) :
    movieLinksLoop items = items.map (fun it => { title := movieTitle it, url := it.file }) := by
  induction items with
  | nil => rfl
  | cons it rest ih => simp [movieLinksLoop, ih]

/-! ## Claim theorems: session manager -/

/-- C9: `login` with an empty (or missing, which the embedding folds into
    empty) username or password returns `false`, leaves the instance alone
    and issues no network request. -/
theorem c9_login_missing_credentials (st : SessionState) (env : NetEnv)
    (h : st.username.isEmpty = true ∨ st.password.isEmpty = true) :
    login st env = (false, st, []) := by
  unfold login
  rcases h with h | h <;> simp [h]

/-- C9 witness: concrete credentials with an empty password. -/
theorem c9_login_missing_credentials_witness :
    login exStEmptyPw exEnv = (false, exStEmptyPw, []) :=
  c9_login_missing_credentials exStEmptyPw exEnv (Or.inr (by decide))

/-- C10: `isLogin` on an empty stored token answers `false` with no network
    request; and in every case it leaves `token` and `refreshToken` unchanged. -/
theorem c10_isLogin_frame (st : SessionState) (env : NetEnv) :
    (st.token.isEmpty = true → isLogin st env = (false, st, []))
      ∧ (isLogin st env).2.1.token = st.token
      ∧ (isLogin st env).2.1.refreshToken = st.refreshToken := by
  refine ⟨fun h => by simp [isLogin, h], ?_, ?_⟩ <;>
    (unfold isLogin; split <;> first | rfl | (cases env.probe <;> rfl))

/-- C10 witness: a concrete session with an empty token. -/
theorem c10_isLogin_frame_witness :
    isLogin exStNoToken exEnv = (false, exStNoToken, []) :=
  (c10_isLogin_frame exStNoToken exEnv).1 (by decide)

/-! ## Claim theorems: detail-fetch retry -/

/-- C1 (code bug): against a provider that auth-rejects every detail fetch
    while every re-login succeeds, `getMovieData` never terminates — no
    amount of fuel (provider calls) completes the recursion — and against a
    provider that auth-rejects twice before succeeding, the code performs a
    *second* retry and returns the payload, exceeding the documented
    retry-once bound. -/
theorem c1_detail_fetch_retry_unbounded :
    (∀ fuel k, getMovieDataFuel alwaysAuthErr alwaysRelogin fuel k = none)
      ∧ getMovieDataFuel twoAuthThenOk alwaysRelogin 3 0 =
          some (some { movie_download_urls := none, serie_download_urls := none }) := by
  constructor
  · intro fuel
    induction fuel with
    | zero => intro k; rfl
    | succ n ih =>
      intro k
      simpa [getMovieDataFuel, alwaysAuthErr, alwaysRelogin] using ih (k + 1)
  · rfl

/-! ## Claim theorems: forwarding gateway -/

/-- C2: the relay answers the distinct disallowed-host outcome (HTTP 403)
    without attempting the upstream fetch whenever the target hostname is
    neither an allowlist entry nor a dot-suffixed subdomain of one, and it
    re-applies the same host check to the final post-redirect hostname,
    rejecting (403, after the fetch) when that final host is not allowlisted. -/
theorem c2_gateway_host_check :
    (∀ allow host fetch, hostAllowed allow host = false →
        relay allow (some (some host)) fetch = (RelayOutcome.disallowedHost, false) ∧
          statusOf RelayOutcome.disallowedHost = 403)
      ∧ (∀ allow host r, hostAllowed allow host = true →
          hostAllowed allow r.finalHost = false →
          relay allow (some (some host)) (some r) = (RelayOutcome.disallowedFinal, true) ∧
            statusOf RelayOutcome.disallowedFinal = 403)
      ∧ (∀ allow host, hostAllowed allow host = true ↔
          ∃ d ∈ allow, host = d ∨ ('.' :: d) <:+ host) := by
  refine ⟨?_, ?_, ?_⟩
  · intro allow host fetch h
    exact ⟨by simp [relay, h], rfl⟩
  · intro allow host r h1 h2
    exact ⟨by simp [relay, h1, h2], rfl⟩
  · intro allow host
    simp [hostAllowed, List.any_eq_true, List.isSuffixOf_iff_suffix]

/-- C2 witness: with allowlist `[digimoviez.com]`, the host `evil.com` is
    rejected before any fetch, and an allowed `cdn.digimoviez.com` request
    whose redirects end on `evil.com` is rejected after the fetch. -/
theorem c2_gateway_host_check_witness :
    relay exAllow (some (some tEvil)) none = (RelayOutcome.disallowedHost, false)
      ∧ relay exAllow (some (some tCdn))
          (some { finalHost := tEvil, size := 5, contentType := tCT }) =
          (RelayOutcome.disallowedFinal, true) :=
  ⟨(c2_gateway_host_check.1 exAllow tEvil none (by decide)).1,
   (c2_gateway_host_check.2.1 exAllow tCdn
      { finalHost := tEvil, size := 5, contentType := tCT } (by decide) (by decide)).1⟩

/-! ## Claim theorems: candidate scoring -/

/-- C5: the score is the sum of a kind component (+100 on kind equality,
    else −50) and a name component over normalized names (+60 exact, else
    +20 starts-with, else +10 contains, else 0); with target title `Matrix`
    and kind `movie`, candidates `The Matrix`/movie, `Matrix Reloaded`/movie
    and `Matrix`/series score 160, 120 and 10. -/
theorem c5_score_decomposition_and_examples :
    (∀ reqType searchTitle it, scoreFor reqType searchTitle it =
        (if it.type = reqType then (100 : Int) else -50) +
          (if normalizeTitle it.name = normalizeTitle searchTitle then (60 : Int)
           else if (normalizeTitle searchTitle).isPrefixOf (normalizeTitle it.name) then 20
           else if isSubL (normalizeTitle searchTitle) (normalizeTitle it.name) then 10
           else 0))
      ∧ scoreFor tMovie tMatrix { name := tTheMatrix, type := tMovie } = 160
      ∧ scoreFor tMovie tMatrix { name := tMatrixReloaded, type := tMovie } = 120
      ∧ scoreFor tMovie tMatrix { name := tMatrix, type := tSeries } = 10 :=
  ⟨fun _ _ _ => rfl, by decide, by decide, by decide⟩

/-! ## Claim theorems: movie link extraction -/

/-- C8: movie extraction yields one stream link per download entry in
    provider order, each titled `quality - size - encode - label` and
    carrying the entry's `file` url unmodified; the example entry produces
    exactly `1080p - 2GB - x265 - WEB` with its url, and zero entries
    produce the empty sequence. -/
theorem c8_movie_links :
    (∀ su items,
        getMovieLinks (some { movie_download_urls := some items, serie_download_urls := su }) =
          items.map (fun it => { title := movieTitle it, url := it.file }))
      ∧ getMovieLinks
          (some { movie_download_urls := some [exMovieEntry], serie_download_urls := none }) =
          [{ title := exMovieTitle, url := tFileUrl }]
      ∧ (∀ su,
          getMovieLinks (some { movie_download_urls := some [], serie_download_urls := su }) = []) :=
  ⟨fun _ items => movieLinksLoop_eq_map items, by decide, fun _ => rfl⟩

/-! ## Series extraction lemmas -/

theorem bucketKeeps_eq_of_name {b : SeasonBucket} {sn : List Char} (needle : List Char)
    (hsn : b.season_name = some sn) : bucketKeeps needle b = seasonMatches needle sn := by
  simp [bucketKeeps, hsn]

theorem filterSeason_ok (needle : List Char) (bs : List SeasonBucket)
    (h : ∀ b ∈ bs, b.season_name.isSome = true) :
    filterSeason needle bs = Except.ok (bs.filter (bucketKeeps needle)) := by
  induction bs with
  | nil => rfl
  | cons b rest ih =>
    obtain ⟨sn, hsn⟩ := Option.isSome_iff_exists.mp (h b (List.mem_cons_self b rest))
    have ihh := ih (fun x hx => h x (List.mem_cons_of_mem b hx))
    rw [List.filter_cons, bucketKeeps_eq_of_name needle hsn]
    simp only [filterSeason, hsn, ihh]

theorem filterSeason_error_iff (needle : List Char) (bs : List SeasonBucket) :
    filterSeason needle bs = Except.error () ↔ ∃ b ∈ bs, b.season_name = none := by
  induction bs with
  | nil => simp [filterSeason]
  | cons b rest ih =>
    cases hsn : b.season_name with
    | none =>
      have hL : filterSeason needle (b :: rest) = Except.error () := by
        simp only [filterSeason, hsn]
      rw [hL]
      exact iff_of_true rfl ⟨b, List.mem_cons_self b rest, hsn⟩
    | some sn =>
      have hred : filterSeason needle (b :: rest) =
          match filterSeason needle rest with
          | Except.error e => Except.error e
          | Except.ok r => Except.ok (if seasonMatches needle sn then b :: r else r) := by
        simp only [filterSeason, hsn]
      cases hf : filterSeason needle rest with
      | error e =>
        cases e
        rw [hf] at hred
        rw [hred]
        obtain ⟨b0, hb0, h0⟩ := ih.mp hf
        exact iff_of_true rfl ⟨b0, List.mem_cons_of_mem b hb0, h0⟩
      | ok r =>
        rw [hf] at hred
        rw [hred]
        constructor
        · intro hcontra
          exact absurd hcontra (by simp)
        · rintro ⟨b0, hb0, h0⟩
          rcases List.mem_cons.mp hb0 with hb | hb
          · rw [hb] at h0
            rw [h0] at hsn
            exact absurd hsn (by simp)
          · have hcontra := ih.mpr ⟨b0, hb, h0⟩
            rw [hf] at hcontra
            exact absurd hcontra (by simp)

theorem buildSeriesLinks_filter_eq (needle : List Char) (ep : Option Int)
    (bs : List SeasonBucket) (h : ∀ b ∈ bs, b.season_name.isSome = true) :
    buildSeriesLinks ep (bs.filter (bucketKeeps needle)) =
      bs.filterMap (seriesLinkOf needle ep) := by
  induction bs with
  | nil => rfl
  | cons b rest ih =>
    obtain ⟨sn, hsn⟩ := Option.isSome_iff_exists.mp (h b (List.mem_cons_self b rest))
    have ihh := ih (fun x hx => h x (List.mem_cons_of_mem b hx))
    rw [List.filter_cons, List.filterMap_cons, bucketKeeps_eq_of_name needle hsn]
    by_cases hm : seasonMatches needle sn
    · rw [if_pos hm]
      cases ep with
      | none =>
        cases hl : b.links with
        | none => simp [buildSeriesLinks, seriesLinkOf, hsn, hm, hl, ihh]
        | some ls => simp [buildSeriesLinks, seriesLinkOf, hsn, hm, hl, ihh]
      | some e =>
        cases hl : b.links with
        | none => simp [buildSeriesLinks, seriesLinkOf, hsn, hm, hl, ihh]
        | some ls =>
          cases hidx : getIdx ls (e - 1) with
          | none => simp [buildSeriesLinks, seriesLinkOf, hsn, hm, hl, hidx, ihh]
          | some epl => simp [buildSeriesLinks, seriesLinkOf, hsn, hm, hl, hidx, ihh]
    · rw [if_neg hm]
      have hm2 : seasonMatches needle sn = false := Bool.eq_false_iff.mpr hm
      simp [seriesLinkOf, hsn, hm2, ihh]

/-! ## Claim theorems: series link extraction -/

/-- C6: on a payload whose season buckets all carry a season label, series
    extraction returns exactly one link per bucket whose (de-spaced) label
    contains `:season` and whose episode list has an entry at index
    `episode − 1`, with that entry's url — and nothing from any other
    bucket; too-short buckets are skipped without failing, and an
    identifier without `:season:episode` defaults to season 1, episode 1
    while `tt000:2:3` parses to season 2, episode 3. -/
theorem c6_series_extraction :
    (∀ mu buckets imdbId, (∀ b ∈ buckets, b.season_name.isSome = true) →
        getSeriesLinks
            (some { movie_download_urls := mu, serie_download_urls := some buckets }) imdbId =
          buckets.filterMap
            (seriesLinkOf (seasonNeedle (parseSE imdbId).1) (parseSE imdbId).2))
      ∧ parseSE exBase = (some 1, some 1)
      ∧ parseSE exId23 = (some 2, some 3) := by
  refine ⟨?_, by decide, by decide⟩
  intro mu buckets imdbId h
  dsimp only [getSeriesLinks, getSeriesLinksE]
  rw [filterSeason_ok _ _ h]
  exact buildSeriesLinks_filter_eq _ _ _ h

/-- C6 witness: `tt000:2:3` against one season-2 bucket with five episode
    entries yields exactly the third entry's url. -/
theorem c6_series_extraction_witness :
    (∀ b ∈ [goodBucket], b.season_name.isSome = true)
      ∧ getSeriesLinks (some mdGoodOnly) exId23 = [{ title := t1080p2GB, url := tU3 }] := by
  refine ⟨by decide, ?_⟩
  exact (c6_series_extraction.1 none [goodBucket] exId23 (by decide)).trans (by decide)

/-- C7 counterexample: extraction errors are *not* caught per-item — adding
    one malformed bucket (missing `season_name`) to a payload whose other
    bucket extracts fine makes the whole extraction return `[]` instead of
    that bucket's link. -/
theorem c7_bad_bucket_aborts_extraction :
    getSeriesLinks (some mdGoodAndBad) exId23 = []
      ∧ getSeriesLinks (some mdGoodOnly) exId23 = [{ title := t1080p2GB, url := tU3 }] :=
  ⟨by decide, by decide⟩

/-- C7 (amended): extraction never raises — every internal error is caught
    by the single extraction-wide handler, which returns the empty sequence
    (no links were built yet, because the only throwing phase is the
    pre-loop filter) — and an internal error occurs exactly when some
    season bucket lacks its `season_name`. -/
theorem c7_extraction_error_containment :
    (∀ md imdbId, getSeriesLinksE md imdbId = Except.error () →
        getSeriesLinks md imdbId = [])
      ∧ (∀ mu buckets imdbId,
          getSeriesLinksE
              (some { movie_download_urls := mu, serie_download_urls := some buckets })
              imdbId = Except.error ()
            ↔ ∃ b ∈ buckets, b.season_name = none) := by
  constructor
  · intro md imdbId h
    unfold getSeriesLinks
    rw [h]
  · intro mu buckets imdbId
    dsimp only [getSeriesLinksE]
    rw [← filterSeason_error_iff (seasonNeedle (parseSE imdbId).1) buckets]
    cases hf : filterSeason (seasonNeedle (parseSE imdbId).1) buckets with
    | error e =>
      cases e
      exact iff_of_true rfl rfl
    | ok r =>
      constructor
      · intro hcontra
        exact absurd hcontra (by simp)
      · intro hcontra
        exact absurd hcontra (by simp)

/-- C7 witness: the payload with the malformed bucket makes the body raise,
    and the caught extraction degrades to the empty sequence. -/
theorem c7_extraction_error_containment_witness :
    getSeriesLinks (some mdGoodAndBad) exId23 = [] :=
  c7_extraction_error_containment.1 (some mdGoodAndBad) exId23 rfl

/-! ## Normalization lemmas: characters -/

theorem jsLower_pairs_snd : ∀ p ∈ upperLowerPairs, jsLower p.2 = p.2 := by decide

theorem jsLower_idem (c : Char) : jsLower (jsLower c) = jsLower c := by
  cases hfind : upperLowerPairs.find? (fun p => p.1 = c) with
  | none =>
    have h1 : jsLower c = c := by unfold jsLower; rw [hfind]
    rw [h1, h1]
  | some p =>
    have h1 : jsLower c = p.2 := by unfold jsLower; rw [hfind]
    rw [h1]
    exact jsLower_pairs_snd p (List.mem_of_find?_eq_some hfind)

theorem map_id_on {α : Type} (f : α → α) (l : List α) (h : ∀ c ∈ l, f c = c) :
    l.map f = l := by
  induction l with
  | nil => rfl
  | cons c cs ih =>
    rw [List.map_cons, h c (List.mem_cons_self c cs),
      ih (fun x hx => h x (List.mem_cons_of_mem c hx))]

theorem mem_lowerStr_fixed {c : Char} {l : List Char} (h : c ∈ lowerStr l) :
    jsLower c = c := by
  obtain ⟨c0, _, rfl⟩ := List.mem_map.mp h
  exact jsLower_idem c0

theorem mem_replaceAmp {c : Char} {l : List Char} (h : c ∈ replaceAmp l) :
    c ∈ l ∨ c = 'a' ∨ c = 'n' ∨ c = 'd' := by
  induction l with
  | nil => simp [replaceAmp] at h
  | cons x xs ih =>
    by_cases hx : x = '&'
    · simp only [replaceAmp, if_pos hx, List.mem_cons] at h
      rcases h with h | h | h | h
      · exact Or.inr (Or.inl h)
      · exact Or.inr (Or.inr (Or.inl h))
      · exact Or.inr (Or.inr (Or.inr h))
      · rcases ih h with h2 | h2
        · exact Or.inl (List.mem_cons_of_mem x h2)
        · exact Or.inr h2
    · simp only [replaceAmp, if_neg hx, List.mem_cons] at h
      rcases h with h | h
      · exact Or.inl (List.mem_cons.mpr (Or.inl h))
      · rcases ih h with h2 | h2
        · exact Or.inl (List.mem_cons_of_mem x h2)
        · exact Or.inr h2

theorem amp_not_mem_replaceAmp (l : List Char) : '&' ∉ replaceAmp l := by
  induction l with
  | nil => simp [replaceAmp]
  | cons x xs ih =>
    by_cases hx : x = '&'
    · simp only [replaceAmp, if_pos hx, List.mem_cons]
      rintro (h | h | h | h)
      · exact absurd h (by decide)
      · exact absurd h (by decide)
      · exact absurd h (by decide)
      · exact ih h
    · simp only [replaceAmp, if_neg hx, List.mem_cons]
      rintro (h | h)
      · exact hx h.symm
      · exact ih h

/-! ## Normalization lemmas: article stripping and punctuation -/

theorem stripArticle_suffix (art l : List Char) : stripArticle art l <:+ l := by
  have hbase : ∀ c cs, l.drop art.length = c :: cs →
      (if isWS c then cs.dropWhile isWS else l) <:+ l := by
    intro c cs hd
    by_cases hws : isWS c
    · rw [if_pos hws]
      have h1 : cs.dropWhile isWS <:+ cs := List.dropWhile_suffix _
      have h2 : cs <:+ c :: cs := List.suffix_cons c cs
      have h3 : c :: cs <:+ l := hd ▸ List.drop_suffix art.length l
      exact h1.trans (h2.trans h3)
    · rw [if_neg hws]
  unfold stripArticle
  split
  · cases hd : l.drop art.length with
    | nil => exact List.suffix_refl l
    | cons c cs => exact hbase c cs hd
  · exact List.suffix_refl l

theorem mem_stripArticle {c : Char} {art l : List Char} (h : c ∈ stripArticle art l) :
    c ∈ l :=
  (stripArticle_suffix art l).subset h

theorem stripArticle_id {art l : List Char} (h : artMatches art l = false) :
    stripArticle art l = l := by
  unfold stripArticle
  split
  · next hp =>
    cases hd : l.drop art.length with
    | nil => rfl
    | cons c cs =>
      by_cases hws : isWS c
      · exfalso
        apply absurd h
        unfold artMatches
        rw [hp, hd]
        simp [hws]
      · simp [hws]
  · rfl

theorem mem_replacePunct {c : Char} {l : List Char} (h : c ∈ replacePunct l) :
    c ∈ l ∨ c = ' ' := by
  obtain ⟨c0, hc0, hf⟩ := List.mem_map.mp h
  by_cases hp : c0 = ':' || c0 = '-' || c0 = '.'
  · rw [if_pos hp] at hf
    exact Or.inr hf.symm
  · rw [if_neg hp] at hf
    exact Or.inl (hf ▸ hc0)

theorem punct_not_mem_replacePunct {c : Char} {l : List Char}
    (hc : c = ':' || c = '-' || c = '.') : c ∉ replacePunct l := by
  intro h
  obtain ⟨c0, _, hf⟩ := List.mem_map.mp h
  by_cases hp : c0 = ':' || c0 = '-' || c0 = '.'
  · rw [if_pos hp] at hf
    rw [← hf] at hc
    exact absurd hc (by decide)
  · rw [if_neg hp] at hf
    rw [hf] at hp
    exact hp hc

theorem replacePunct_id {l : List Char}
    (h : ∀ c ∈ l, (c = ':' || c = '-' || c = '.') = false) : replacePunct l = l := by
  apply map_id_on
  intro c hc
  rw [if_neg (by rw [h c hc]; exact Bool.false_ne_true)]

/-! ## Normalization lemmas: whitespace collapsing and trimming -/

theorem dropWhile_head_false {p : Char → Bool} :
    ∀ {l : List Char} {c : Char} {t : List Char}, l.dropWhile p = c :: t → p c = false := by
  intro l
  induction l with
  | nil => intro c t h; simp at h
  | cons x xs ih =>
    intro c t h
    rw [List.dropWhile_cons] at h
    by_cases hx : p x = true
    · rw [if_pos hx] at h
      exact ih h
    · rw [if_neg hx] at h
      injection h with h1 _
      rw [← h1]
      exact Bool.eq_false_iff.mpr hx

theorem collapseWS_cons_head (c : Char) (cs : List Char) :
    ∃ t, collapseWS (c :: cs) = (if isWS c then ' ' else c) :: t := by
  induction cs generalizing c with
  | nil =>
    by_cases h : isWS c
    · exact ⟨[], by rw [if_pos h]; simp [collapseWS, h]⟩
    · exact ⟨[], by rw [if_neg h]; simp [collapseWS, h]⟩
  | cons c2 cs2 ih =>
    by_cases h1 : isWS c
    · by_cases h2 : isWS c2
      · obtain ⟨t, ht⟩ := ih c2
        rw [if_pos h2] at ht
        refine ⟨t, ?_⟩
        rw [if_pos h1]
        simp only [collapseWS, if_pos h1, if_pos h2]
        exact ht
      · refine ⟨collapseWS (c2 :: cs2), ?_⟩
        rw [if_pos h1]
        simp only [collapseWS, if_pos h1, if_neg h2]
    · refine ⟨collapseWS (c2 :: cs2), ?_⟩
      rw [if_neg h1]
      simp only [collapseWS, if_neg h1]

theorem mem_collapseWS {c : Char} : ∀ {l : List Char}, c ∈ collapseWS l → c ∈ l ∨ c = ' ' := by
  intro l
  induction l using collapseWS.induct with
  | case1 => intro h; simp [collapseWS] at h
  | case2 c1 h1 =>
    intro h
    simp [collapseWS, h1] at h
    exact Or.inr h
  | case3 c1 h1 =>
    intro h
    simp [collapseWS, h1] at h
    exact Or.inl (by simp [h])
  | case4 c1 c2 cs h1 h2 ih =>
    intro h
    simp only [collapseWS, if_pos h1, if_pos h2] at h
    rcases ih h with h3 | h3
    · exact Or.inl (List.mem_cons_of_mem c1 h3)
    · exact Or.inr h3
  | case5 c1 c2 cs h1 h2 ih =>
    intro h
    simp only [collapseWS, if_pos h1, if_neg h2] at h
    rcases List.mem_cons.mp h with h3 | h3
    · exact Or.inr h3
    · rcases ih h3 with h4 | h4
      · exact Or.inl (List.mem_cons_of_mem c1 h4)
      · exact Or.inr h4
  | case6 c1 c2 cs h1 ih =>
    intro h
    simp only [collapseWS, if_neg h1] at h
    rcases List.mem_cons.mp h with h3 | h3
    · exact Or.inl (by rw [h3]; exact List.mem_cons_self _ _)
    · rcases ih h3 with h4 | h4
      · exact Or.inl (List.mem_cons_of_mem c1 h4)
      · exact Or.inr h4

theorem ws_space_collapseWS {c : Char} :
    ∀ {l : List Char}, c ∈ collapseWS l → isWS c = true → c = ' ' := by
  intro l
  induction l using collapseWS.induct with
  | case1 => intro h _; simp [collapseWS] at h
  | case2 c1 h1 =>
    intro h _
    simpa [collapseWS, h1] using h
  | case3 c1 h1 =>
    intro h hws
    simp [collapseWS, h1] at h
    rw [h] at hws
    exact absurd hws h1
  | case4 c1 c2 cs h1 h2 ih =>
    intro h hws
    simp only [collapseWS, if_pos h1, if_pos h2] at h
    exact ih h hws
  | case5 c1 c2 cs h1 h2 ih =>
    intro h hws
    simp only [collapseWS, if_pos h1, if_neg h2] at h
    rcases List.mem_cons.mp h with h3 | h3
    · exact h3
    · exact ih h3 hws
  | case6 c1 c2 cs h1 ih =>
    intro h hws
    simp only [collapseWS, if_neg h1] at h
    rcases List.mem_cons.mp h with h3 | h3
    · rw [h3] at hws
      exact absurd hws h1
    · exact ih h3 hws

theorem noAdjWS_tail {c : Char} {l : List Char} (h : noAdjWS (c :: l) = true) :
    noAdjWS l = true := by
  cases l with
  | nil => rfl
  | cons c2 cs =>
    simp only [noAdjWS, Bool.and_eq_true] at h
    exact h.2

theorem noAdjWS_append_left : ∀ {l t : List Char}, noAdjWS (l ++ t) = true → noAdjWS l = true := by
  intro l
  induction l with
  | nil => intro t _; rfl
  | cons c cs ih =>
    intro t h
    cases cs with
    | nil => rfl
    | cons c2 cs2 =>
      have h2 : noAdjWS (c :: c2 :: (cs2 ++ t)) = true := by simpa using h
      simp only [noAdjWS, Bool.and_eq_true] at h2 ⊢
      exact ⟨h2.1, ih (t := t) (by simpa using h2.2)⟩

theorem noAdjWS_suffix {l1 l2 : List Char} (hs : l1 <:+ l2) (h : noAdjWS l2 = true) :
    noAdjWS l1 = true := by
  obtain ⟨t, rfl⟩ := hs
  induction t with
  | nil => simpa using h
  | cons c cs ih => exact ih (noAdjWS_tail (by simpa using h))

theorem noAdjWS_pre {l1 l2 : List Char} (hp : l1 <+: l2) (h : noAdjWS l2 = true) :
    noAdjWS l1 = true := by
  obtain ⟨t, rfl⟩ := hp
  exact noAdjWS_append_left h

theorem noAdjWS_collapseWS : ∀ (l : List Char), noAdjWS (collapseWS l) = true := by
  intro l
  induction l using collapseWS.induct with
  | case1 => rfl
  | case2 c1 h1 => simp [collapseWS, h1, noAdjWS]
  | case3 c1 h1 => simp [collapseWS, h1, noAdjWS]
  | case4 c1 c2 cs h1 h2 ih => simpa [collapseWS, h1, h2] using ih
  | case5 c1 c2 cs h1 h2 ih =>
    obtain ⟨t, ht⟩ := collapseWS_cons_head c2 cs
    rw [if_neg h2] at ht
    have hb2 : isWS c2 = false := Bool.eq_false_iff.mpr h2
    simp only [collapseWS, if_pos h1, if_neg h2, ht, noAdjWS, Bool.and_eq_true]
    constructor
    · simp [hb2]
    · rw [← ht]
      exact ih
  | case6 c1 c2 cs h1 ih =>
    obtain ⟨t, ht⟩ := collapseWS_cons_head c2 cs
    have hb1 : isWS c1 = false := Bool.eq_false_iff.mpr h1
    simp only [collapseWS, if_neg h1, ht, noAdjWS, Bool.and_eq_true]
    constructor
    · simp [hb1]
    · rw [← ht]
      exact ih

theorem collapseWS_id : ∀ {l : List Char}, (∀ c ∈ l, isWS c = true → c = ' ') →
    noAdjWS l = true → collapseWS l = l := by
  intro l
  induction l using collapseWS.induct with
  | case1 => intro _ _; rfl
  | case2 c1 h1 =>
    intro hws _
    have hc1 : c1 = ' ' := hws c1 (List.mem_cons_self _ _) h1
    simp [collapseWS, h1, hc1]
  | case3 c1 h1 =>
    intro _ _
    simp [collapseWS, h1]
  | case4 c1 c2 cs h1 h2 ih =>
    intro hws hadj
    exfalso
    simp only [noAdjWS, Bool.and_eq_true] at hadj
    rw [h1, h2] at hadj
    simp at hadj
  | case5 c1 c2 cs h1 h2 ih =>
    intro hws hadj
    have hc1 : c1 = ' ' := hws c1 (List.mem_cons_self _ _) h1
    have ih2 := ih (fun x hx hwx => hws x (List.mem_cons_of_mem c1 hx) hwx) (noAdjWS_tail hadj)
    simp only [collapseWS, if_pos h1, if_neg h2, ih2, hc1]
    split <;> rfl
  | case6 c1 c2 cs h1 ih =>
    intro hws hadj
    have ih2 := ih (fun x hx hwx => hws x (List.mem_cons_of_mem c1 hx) hwx) (noAdjWS_tail hadj)
    simp only [collapseWS, if_neg h1, ih2]

theorem dropTrailWS_pre : ∀ (l : List Char), dropTrailWS l <+: l := by
  intro l
  induction l with
  | nil => exact List.prefix_refl _
  | cons c cs ih =>
    simp only [dropTrailWS]
    by_cases hr : (dropTrailWS cs).isEmpty = true
    · rw [if_pos hr]
      by_cases hc : isWS c
      · rw [if_pos hc]
        exact List.nil_prefix
      · rw [if_neg hc]
        exact ⟨cs, rfl⟩
    · rw [if_neg hr]
      obtain ⟨t, ht⟩ := ih
      exact ⟨t, by rw [List.cons_append, ht]⟩

theorem dropTrailWS_head {l : List Char} {c : Char} {t : List Char}
    (h : dropTrailWS l = c :: t) : ∃ t0, l = c :: t0 := by
  cases l with
  | nil => simp [dropTrailWS] at h
  | cons x xs =>
    simp only [dropTrailWS] at h
    by_cases hr : (dropTrailWS xs).isEmpty = true
    · rw [if_pos hr] at h
      by_cases hx : isWS x
      · rw [if_pos hx] at h
        simp at h
      · rw [if_neg hx] at h
        injection h with h1 _
        exact ⟨xs, by rw [h1]⟩
    · rw [if_neg hr] at h
      injection h with h1 _
      exact ⟨xs, by rw [h1]⟩

theorem dropTrailWS_last : ∀ {l : List Char} {c : Char},
    (dropTrailWS l).getLast? = some c → isWS c = false := by
  intro l
  induction l with
  | nil => intro c h; simp [dropTrailWS] at h
  | cons x xs ih =>
    intro c h
    simp only [dropTrailWS] at h
    by_cases hr : (dropTrailWS xs).isEmpty = true
    · rw [if_pos hr] at h
      by_cases hx : isWS x
      · rw [if_pos hx] at h
        simp at h
      · rw [if_neg hx] at h
        simp at h
        rw [← h]
        exact Bool.eq_false_iff.mpr hx
    · rw [if_neg hr] at h
      cases hd : dropTrailWS xs with
      | nil =>
        rw [hd] at hr
        simp at hr
      | cons y ys =>
        rw [hd, List.getLast?_cons_cons, ← hd] at h
        exact ih h

theorem dropTrailWS_id : ∀ {l : List Char},
    (∀ c, l.getLast? = some c → isWS c = false) → dropTrailWS l = l := by
  intro l
  induction l with
  | nil => intro _; rfl
  | cons x xs ih =>
    intro h
    cases xs with
    | nil =>
      have hx : isWS x = false := h x (by simp)
      simp [dropTrailWS, hx]
    | cons y ys =>
      have htail : dropTrailWS (y :: ys) = y :: ys := by
        apply ih
        intro c hc
        exact h c (by rw [List.getLast?_cons_cons]; exact hc)
      have hstep : dropTrailWS (x :: y :: ys) =
          if (dropTrailWS (y :: ys)).isEmpty then (if isWS x then [] else [x])
          else x :: dropTrailWS (y :: ys) := rfl
      rw [hstep, htail]
      simp

theorem dropWhile_id_of_head {l : List Char} {p : Char → Bool}
    (h : ∀ c t, l = c :: t → p c = false) : l.dropWhile p = l := by
  cases l with
  | nil => rfl
  | cons c t =>
    rw [List.dropWhile_cons, if_neg]
    rw [h c t rfl]
    exact Bool.false_ne_true

theorem trimWS_id {l : List Char} (hhead : ∀ c t, l = c :: t → isWS c = false)
    (hlast : ∀ c, l.getLast? = some c → isWS c = false) : trimWS l = l := by
  unfold trimWS
  rw [dropWhile_id_of_head hhead]
  exact dropTrailWS_id hlast

theorem replaceAmp_id {l : List Char} (h : '&' ∉ l) : replaceAmp l = l := by
  induction l with
  | nil => rfl
  | cons x xs ih =>
    have hx : ¬ x = '&' := fun hc => h (by rw [hc]; exact List.mem_cons_self _ _)
    simp only [replaceAmp, if_neg hx]
    rw [ih (fun hc => h (List.mem_cons_of_mem x hc))]

/-! ## Claim theorems: title normalization -/

/-- C3 counterexample: `normalize` is not idempotent.  On `a the b` one pass
    strips only the article `a` (the leading-`the` rule ran first, when the
    string did not yet start with `the`), leaving `the b`, and a second pass
    strips `the` as well. -/
theorem c3_normalize_not_idempotent :
    normalizeTitle (normalizeTitle tATheB) ≠ normalizeTitle tATheB := by decide

/-- C3 (amended): `normalize` is idempotent on every input whose normalized
    form does not again start with a leading article (`the`, `a` or `an`)
    followed by whitespace; equivalently, a second pass changes nothing
    unless the first pass left a leading article exposed. -/
theorem c3_normalize_idempotent_no_leading_article (s : List Char)
    (h : startsWithArticle (normalizeTitle s) = false) :
    normalizeTitle (normalizeTitle s) = normalizeTitle s := by
  simp only [startsWithArticle, Bool.or_eq_false_iff] at h
  obtain ⟨⟨hthe, ha⟩, han⟩ := h
  have hy : normalizeTitle s =
      dropTrailWS (List.dropWhile isWS (collapseWS (replacePunct (stripArticle anChars
        (stripArticle aChars (stripArticle theChars (replaceAmp (lowerStr s)))))))) := rfl
  have hmemw : ∀ c ∈ normalizeTitle s,
      c ∈ collapseWS (replacePunct (stripArticle anChars (stripArticle aChars
        (stripArticle theChars (replaceAmp (lowerStr s)))))) := by
    intro c hc
    rw [hy] at hc
    exact (List.dropWhile_suffix isWS).subset ((dropTrailWS_pre _).subset hc)
  have hsrc : ∀ c ∈ normalizeTitle s, c = ' ' ∨ c ∈ replaceAmp (lowerStr s) := by
    intro c hc
    rcases mem_collapseWS (hmemw c hc) with hcp | hcsp
    · rcases mem_replacePunct hcp with hcs | hcsp
      · exact Or.inr (mem_stripArticle (mem_stripArticle (mem_stripArticle hcs)))
      · exact Or.inl hcsp
    · exact Or.inl hcsp
  have hF1 : ∀ c ∈ normalizeTitle s, jsLower c = c := by
    intro c hc
    rcases hsrc c hc with hsp | hmem
    · rw [hsp]; decide
    · rcases mem_replaceAmp hmem with hml | ha2 | hn2 | hd3
      · exact mem_lowerStr_fixed hml
      · rw [ha2]; decide
      · rw [hn2]; decide
      · rw [hd3]; decide
  have hF2 : '&' ∉ normalizeTitle s := by
    intro hc
    rcases hsrc '&' hc with hsp | hmem
    · exact absurd hsp (by decide)
    · exact amp_not_mem_replaceAmp _ hmem
  have hF3 : ∀ c ∈ normalizeTitle s, (c = ':' || c = '-' || c = '.') = false := by
    intro c hc
    by_cases hp : (c = ':' || c = '-' || c = '.') = true
    · exfalso
      rcases mem_collapseWS (hmemw c hc) with hcp | hcsp
      · exact punct_not_mem_replacePunct hp hcp
      · rw [hcsp] at hp
        exact absurd hp (by decide)
    · exact Bool.eq_false_iff.mpr hp
  have hF4 : ∀ c ∈ normalizeTitle s, isWS c = true → c = ' ' := by
    intro c hc hws
    exact ws_space_collapseWS (hmemw c hc) hws
  have hF5 : noAdjWS (normalizeTitle s) = true := by
    rw [hy]
    exact noAdjWS_pre (dropTrailWS_pre _)
      (noAdjWS_suffix (List.dropWhile_suffix isWS) (noAdjWS_collapseWS _))
  have hF6 : ∀ c t, normalizeTitle s = c :: t → isWS c = false := by
    intro c t hct
    rw [hy] at hct
    obtain ⟨t0, ht0⟩ := dropTrailWS_head hct
    exact dropWhile_head_false ht0
  have hF7 : ∀ c, (normalizeTitle s).getLast? = some c → isWS c = false := by
    intro c hc
    rw [hy] at hc
    exact dropTrailWS_last hc
  have e1 : lowerStr (normalizeTitle s) = normalizeTitle s := map_id_on _ _ hF1
  have e2 : replaceAmp (normalizeTitle s) = normalizeTitle s := replaceAmp_id hF2
  have e3 : stripArticle theChars (normalizeTitle s) = normalizeTitle s := stripArticle_id hthe
  have e4 : stripArticle aChars (normalizeTitle s) = normalizeTitle s := stripArticle_id ha
  have e5 : stripArticle anChars (normalizeTitle s) = normalizeTitle s := stripArticle_id han
  have e6 : replacePunct (normalizeTitle s) = normalizeTitle s := replacePunct_id hF3
  have e7 : collapseWS (normalizeTitle s) = normalizeTitle s := collapseWS_id hF4 hF5
  have e8 : trimWS (normalizeTitle s) = normalizeTitle s := trimWS_id hF6 hF7
  show trimWS (collapseWS (replacePunct (stripArticle anChars (stripArticle aChars
    (stripArticle theChars (replaceAmp (lowerStr (normalizeTitle s)))))))) = normalizeTitle s
  rw [e1, e2, e3, e4, e5, e6, e7, e8]

/-- C3 witness: `The Matrix` normalizes to `matrix`, which exposes no
    leading article, so the amended idempotence applies to it. -/
theorem c3_normalize_idempotent_witness :
    startsWithArticle (normalizeTitle tTheMatrix) = false
      ∧ normalizeTitle (normalizeTitle tTheMatrix) = normalizeTitle tTheMatrix :=
  ⟨by decide, c3_normalize_idempotent_no_leading_article tTheMatrix (by decide)⟩

/-- C4 counterexample: `normalize("A&B")` is `aandb`, not `a and b` (the
    `&` → `and` splice adds no spaces), and `normalize("The A Team")` is
    `team`, not `a team` (the pass strips `the` and then also `a`, so more
    than one leading article can go). -/
theorem c4_normalize_steps_counterexample :
    normalizeTitle tAAmpB ≠ tAandB ∧ normalizeTitle tTheATeam ≠ tATeam := by
  exact ⟨by decide, by decide⟩

/-- C4 (amended): the steps run in the stated order, but `&` becomes the
    bare word `and` with no surrounding spaces, and the article phase tries
    `the`, then `a`, then `an` — each at most once, in that order — so up to
    three leading articles can be stripped in one pass: `The Matrix` and
    `Matrix` both normalize to `matrix`, `A&B` to `aandb` (not `a and b`),
    `The A Team` to `team`, and punctuation/whitespace handling maps
    `Spider-Man: No Way Home` to `spider man no way home`. -/
theorem c4_normalize_steps_amended :
    (∀ s, normalizeTitle s =
        trimWS (collapseWS (replacePunct (stripArticle anChars (stripArticle aChars
          (stripArticle theChars (replaceAmp (lowerStr s))))))))
      ∧ normalizeTitle tTheMatrix = tMatrixLower
      ∧ normalizeTitle tMatrix = tMatrixLower
      ∧ normalizeTitle tAAmpB = tAandb
      ∧ normalizeTitle tTheATeam = tTeam
      ∧ normalizeTitle tSpiderMan = tSpiderManNorm :=
  ⟨fun _ => rfl, by decide, by decide, by decide, by decide, by decide⟩
